import Mathlib

/-!
Shallow embedding of `src/assets/js/blocking.js`, a demonstration script of
browser performance anti-patterns, together with proofs of the observable
contracts stated for it.  Each definition is annotated with the source lines
it embeds.  DOM state is modelled as a list of node identifiers, the wall
clock as a sequence of readings, and JS numbers as exact integers/rationals
(all arithmetic the script performs on them — comparisons, doubling,
integer remainder — is exact in IEEE doubles on the ranges used).
-/

namespace Blocking

/-! ### Busy-wait sleep (lines 4-9)

`sleep(ms)` records `start = Date.now()` and spins while
`Date.now() - start < ms`.  The clock is modelled as the sequence of values
returned by successive `Date.now()` calls; call 0 is the `start` read and
the loop reads calls 1, 2, ….  `fuel` bounds the number of loop iterations
we simulate; `none` means the loop was still spinning after `fuel` checks. -/

def sleepLoop (clock : Nat → Int) (start ms : Int) : Nat → Nat → Option Nat
  | _, 0 => none
  | k, fuel + 1 =>
    if clock k - start < ms then sleepLoop clock start ms (k + 1) fuel
    else some k

def sleep (clock : Nat → Int) (ms : Int) (fuel : Nat) : Option Nat :=
  sleepLoop clock (clock 0) ms 1 fuel

/-! ### Memory-leak accumulator (lines 67-90)

Each 1000 ms tick pushes a fresh closure (capturing the live
`querySelectorAll('*')` result, modelled by its length) onto
`window.memoryLeaks`, initialising it to `[]` first if it is still
undefined (`window.memoryLeaks = window.memoryLeaks || []`).
`elems n` is the element count captured at tick `n`. -/

def leakStep (st : Option (List Nat)) (c : Nat) : List Nat :=
  st.getD [] ++ [c]

def leakRun (elems : Nat → Nat) : Nat → Option (List Nat)
  | 0 => none
  | n + 1 => some (leakStep (leakRun elems n) (elems n))

/-! ### DOM churn (lines 23-46)

The body's attached children are modelled as a list of node identifiers.
One loop iteration (lines 28-43) creates a node `e`, styles it, appends it
to the body, reads `offsetHeight` (a layout read, no state change) and
immediately calls `removeChild`, which detaches exactly that node. -/

def churnStep (body : List Nat) (e : Nat) : List Nat :=
  (body ++ [e]).erase e

/-- Run `n` iterations of the loop; `fresh i` is the identifier of the
node created in iteration `i` (a freshly created element, so not attached
beforehand).  The second component counts nodes attached then removed. -/
def churnRun (body : List Nat) (fresh : Nat → Nat) : Nat → List Nat × Nat
  | 0 => (body, 0)
  | n + 1 =>
    let prev := churnRun body fresh n
    (churnStep prev.1 (fresh n), prev.2 + 1)

/-- The full loop of lines 27-44 runs 100 iterations. -/
def inefficientDOMManipulation (body : List Nat) (fresh : Nat → Nat) :
    List Nat × Nat :=
  churnRun body fresh 100

/-! ### Synthetic records and the bulk processor (lines 140-174) -/

structure SRecord where
  id : Int
  name : String
  value : ℚ
  data : List ℚ

/-- After `{...item, processed: true}` (line 155). -/
structure PRecord where
  id : Int
  name : String
  value : ℚ
  data : List ℚ
  processed : Bool

/-- After `{...item, doubled: item.value * 2}` (line 157). -/
structure DRecord where
  id : Int
  name : String
  value : ℚ
  data : List ℚ
  processed : Bool
  doubled : ℚ

/-- The six-pass chain computing `result` (lines 153-159). -/
def dataResult (largeArray : List SRecord) : List String :=
  ((((((largeArray.filter
      fun item => decide (item.value > 1 / 10)).map
      fun item => PRecord.mk item.id item.name item.value item.data true).filter
      fun item => decide (item.id % 2 = 0)).map
      fun item => DRecord.mk item.id item.name item.value item.data item.processed
        (item.value * 2)).filter
      fun item => decide (item.doubled > 1 / 2)).map
      fun item => item.name.toUpper)

/-- The same chain with the first `filter` removed (claim C9). -/
def dataResultNoFirstFilter (largeArray : List SRecord) : List String :=
  (((((largeArray.map
      fun item => PRecord.mk item.id item.name item.value item.data true).filter
      fun item => decide (item.id % 2 = 0)).map
      fun item => DRecord.mk item.id item.name item.value item.data item.processed
        (item.value * 2)).filter
      fun item => decide (item.doubled > 1 / 2)).map
      fun item => item.name.toUpper)

/-- Single composed pass the spec describes: keep records with
`value > 0.1`, even `id` and `2 * value > 0.5`, project uppercased names. -/
def composedResult (largeArray : List SRecord) : List String :=
  (largeArray.filter fun r =>
      decide (r.value > 1 / 10) && decide (r.id % 2 = 0) && decide (r.value * 2 > 1 / 2)).map
    fun r => r.name.toUpper

/-- Inner counting loop `for (let j = 0; j < 1000; j++) comparisons++`
(lines 166-171): `innerLoop c n` runs `n` iterations starting from
counter value `c`. -/
def innerLoop : Nat → Nat → Nat
  | c, 0 => c
  | c, j + 1 => innerLoop (c + 1) j

/-- Outer loop `for (let i = 0; i < 1000; i++)` (lines 165-172). -/
def outerLoop : Nat → Nat → Nat
  | c, 0 => c
  | c, i + 1 => outerLoop (innerLoop c 1000) i

/-- Final value of `comparisons` (lines 164-173).  The loop body never
reads `largeArray`, but the counting pass runs inside
`inefficientDataProcessing` after the records are synthesized, so we keep
the records as an (unused) argument. -/
def comparisonsLoop (largeArray : List SRecord) : Nat :=
  outerLoop 0 1000

/-! ### Heavy calculations (lines 176-210) -/

/-- Trial division up to `n - 1` (lines 181-187): `i` runs over
`2, …, n-1`.  `%` on IEEE doubles agrees with exact integer remainder on
this range. -/
def isPrime (n : Int) : Bool :=
  if n < 2 then false
  else (List.range' 2 (n.toNat - 2)).all fun i => decide ((n % (i : Int)) ≠ 0)

/-- Square-root-bounded trial division, used only as a kernel-evaluable
reference point when counting the primes below 10000. -/
def primeTestAux (n : Nat) : Nat → Nat → Bool
  | _, 0 => true
  | i, fuel + 1 =>
    if n < i * i then true
    else if n % i = 0 then false
    else primeTestAux n (i + 1) fuel

def primeTest (n : Nat) : Bool :=
  decide (2 ≤ n) && primeTestAux n 2 n

/-- Naive double recursion (lines 199-202).  JS numbers are modelled as
integers; `fibonacci n` returns `n` itself whenever `n ≤ 1`, so every
negative argument is a base case. -/
def fibonacci (n : Int) : Int :=
  if n ≤ 1 then n
  else fibonacci (n - 1) + fibonacci (n - 2)
termination_by n.toNat
decreasing_by
  all_goals omega

/-! ### Startup dispatch (lines 225-245) -/

inductive Routine where
  | inefficientDOMManipulation
  | badAnimation
  | setupMemoryLeaks
  | inefficientRegex
  | synchronousRequests
  | inefficientDataProcessing
  | heavyCalculations
deriving DecidableEq

/-- The fixed order used by both branches of the ready-state dispatch
(lines 228-234 and 238-244). -/
def startupOrder : List Routine :=
  [.inefficientDOMManipulation, .badAnimation, .setupMemoryLeaks,
   .inefficientRegex, .synchronousRequests, .inefficientDataProcessing,
   .heavyCalculations]

/-- JS semantics of the statement sequence `r1(); r2(); …` inside one
script/task: routines are invoked in turn; a routine whose invocation
raises an uncaught exception still counts as invoked, but the exception
aborts the task, so nothing after it runs.  `throws r = true` models `r`
raising an uncaught exception; the result is the list of invoked
routines, in invocation order. -/
def invokeSeq (throws : Routine → Bool) : List Routine → List Routine
  | [] => []
  | r :: rs => if throws r then [r] else r :: invokeSeq throws rs

/-- Top-level ready-state dispatch (lines 225-245): when the document is
already loaded (`readyState !== 'loading'`) the seven routines run
immediately in `startupOrder`; otherwise the same sequence is deferred to
the DOMContentLoaded callback and nothing runs now (modelled by `[]`). -/
def startupDispatch (alreadyLoaded : Bool) (throws : Routine → Bool) :
    List Routine :=
  if alreadyLoaded then invokeSeq throws startupOrder else []

end Blocking

namespace Blocking

/-! ### Basic loop lemmas -/

theorem innerLoop_eq (c n : Nat) : innerLoop c n = c + n := by
  induction n generalizing c with
  | zero => simp [innerLoop]
  | succ j ih => simp [innerLoop, ih]; omega

theorem outerLoop_eq (c n : Nat) : outerLoop c n = c + 1000 * n := by
  induction n generalizing c with
  | zero => simp [outerLoop]
  | succ i ih => simp [outerLoop, ih, innerLoop_eq]; ring

/-- C7: the nested counting pass always yields exactly 1,000,000
comparisons, whatever the synthesized records are. -/
theorem comparisonsLoop_eq_million (largeArray : List SRecord) :
    comparisonsLoop largeArray = 1000000 := by
  simp [comparisonsLoop, outerLoop_eq]

/-! ### Sleep lemmas -/

theorem sleepLoop_exit (clock : Nat → Int) (start ms : Int) :
    ∀ fuel k j, sleepLoop clock start ms k fuel = some j →
      ms ≤ clock j - start := by
  intro fuel
  induction fuel with
  | zero => intro k j h; simp [sleepLoop] at h
  | succ n ih =>
    intro k j h
    by_cases hc : clock k - start < ms
    · rw [sleepLoop, if_pos hc] at h
      exact ih (k + 1) j h
    · rw [sleepLoop, if_neg hc] at h
      cases h
      omega

/-- C5: when the busy-wait returns (reading the clock at call `j`), the
elapsed wall-clock time since invocation is at least `ms`. -/
theorem sleep_elapsed_ge (clock : Nat → Int) (ms : Int) (fuel j : Nat)
    (hmono : ∀ i k : Nat, i ≤ k → clock i ≤ clock k)
    (h : sleep clock ms fuel = some j) :
    ms ≤ clock j - clock 0 :=
  sleepLoop_exit clock (clock 0) ms fuel 1 j h

/-- Concrete run of `sleep`: clock advancing 10 ms per poll, duration 25. -/
theorem sleep_elapsed_ge_witness :
    (25 : Int) ≤ (fun n : Nat => (10 * n : Int)) 3 - (fun n : Nat => (10 * n : Int)) 0 :=
  sleep_elapsed_ge (fun n : Nat => (10 * n : Int)) 25 5 3
    (by intro i k h; simp; omega) (by decide)

/-! ### Leak accumulator lemmas -/

/-- C4: after `N` ticks `window.memoryLeaks` holds exactly `N` closures,
and the length never shrinks from one tick to the next. -/
theorem leakRun_length (elems : Nat → Nat) :
    (∀ N, ((leakRun elems N).getD []).length = N) ∧
    (∀ N, ((leakRun elems N).getD []).length ≤
      ((leakRun elems (N + 1)).getD []).length) := by
  have hlen : ∀ N, ((leakRun elems N).getD []).length = N := by
    intro N
    induction N with
    | zero => simp [leakRun]
    | succ n ih => simp [leakRun, leakStep, ih]
  exact ⟨hlen, fun N => by simp [hlen]⟩

/-! ### Fibonacci lemmas -/

theorem fibonacci_natCast (m : Nat) : fibonacci (m : Int) = (Nat.fib m : Int) := by
  induction m using Nat.strong_induction_on with
  | _ m ih =>
    match m with
    | 0 => unfold fibonacci; norm_num
    | 1 => unfold fibonacci; norm_num
    | n + 2 =>
      unfold fibonacci
      rw [if_neg (by push_cast; omega)]
      have e1 : ((n + 2 : Nat) : Int) - 1 = ((n + 1 : Nat) : Int) := by push_cast; ring
      have e2 : ((n + 2 : Nat) : Int) - 2 = ((n : Nat) : Int) := by push_cast; ring
      rw [e1, e2, ih (n + 1) (by omega), ih n (by omega), Nat.fib_add_two]
      push_cast; ring

/-- C8: `fibonacci 10 = 55`, and on all of `[0, 35)` the function agrees
with the standard Fibonacci sequence (`F 0 = 0`, `F 1 = 1`). -/
theorem fibonacci_values :
    fibonacci (10 : Int) = 55 ∧
    ∀ n : Nat, n < 35 → fibonacci (n : Int) = (Nat.fib n : Int) := by
  constructor
  · have h := fibonacci_natCast 10
    have hv : ((Nat.fib 10 : Nat) : Int) = 55 := by decide
    rw [hv] at h
    exact_mod_cast h
  · intro n _
    exact fibonacci_natCast n

/-- Concrete instance of C8: `fibonacci 7 = F 7`. -/
theorem fibonacci_values_witness :
    fibonacci ((7 : Nat) : Int) = (Nat.fib 7 : Int) :=
  fibonacci_values.2 7 (by decide)

/-- C10: every argument `n ≤ 1` — negative arguments included — is a base
case returning `n` itself. -/
theorem fibonacci_base (n : Int) (h : n ≤ 1) : fibonacci n = n := by
  unfold fibonacci
  rw [if_pos h]

/-- Concrete instance of C10: `fibonacci (-5) = -5`. -/
theorem fibonacci_base_witness : fibonacci (-5) = -5 :=
  fibonacci_base (-5) (by decide)

/-! ### Primality lemmas -/

theorem primeTestAux_sound (n : Nat) :
    ∀ fuel i, primeTestAux n i fuel = true →
      ∀ j, i ≤ j → j < i + fuel → j * j ≤ n → n % j ≠ 0 := by
  intro fuel
  induction fuel with
  | zero =>
    intro i _ j hij hlt _
    omega
  | succ f ih =>
    intro i h j hij hlt hjj
    simp only [primeTestAux] at h
    by_cases h1 : n < i * i
    · exact absurd (le_trans (Nat.mul_le_mul hij hij) hjj) (Nat.not_le.mpr h1)
    · rw [if_neg h1] at h
      by_cases h2 : n % i = 0
      · rw [if_pos h2] at h
        cases h
      · rw [if_neg h2] at h
        rcases Nat.eq_or_lt_of_le hij with rfl | hij'
        · exact h2
        · exact ih (i + 1) h j hij' (by omega) hjj

theorem primeTestAux_complete (n : Nat) :
    ∀ fuel i, (∀ j, i ≤ j → j * j ≤ n → n % j ≠ 0) →
      primeTestAux n i fuel = true := by
  intro fuel
  induction fuel with
  | zero =>
    intro i _
    rfl
  | succ f ih =>
    intro i hall
    simp only [primeTestAux]
    by_cases h1 : n < i * i
    · rw [if_pos h1]
    · rw [if_neg h1]
      rw [if_neg (hall i le_rfl (Nat.not_lt.mp h1))]
      exact ih (i + 1) fun j hij hjj => hall j (by omega) hjj

theorem primeTest_iff (n : Nat) : primeTest n = true ↔ Nat.Prime n := by
  rw [primeTest, Bool.and_eq_true, decide_eq_true_eq]
  constructor
  · rintro ⟨h2, haux⟩
    refine Nat.prime_def_le_sqrt.mpr ⟨h2, ?_⟩
    intro m hm2 hms hdvd
    have hmm : m * m ≤ n := Nat.le_sqrt.mp hms
    have hmn : m ≤ n := le_trans (Nat.le_mul_of_pos_left m (by omega)) hmm
    exact primeTestAux_sound n n 2 haux m hm2 (by omega) hmm
      (Nat.dvd_iff_mod_eq_zero.mp hdvd)
  · intro hp
    refine ⟨hp.two_le, primeTestAux_complete n n 2 ?_⟩
    intro j h2j hjj hmod
    exact (Nat.prime_def_le_sqrt.mp hp).2 j h2j (Nat.le_sqrt.mpr hjj)
      (Nat.dvd_of_mod_eq_zero hmod)

theorem isPrime_natCast (m : Nat) : isPrime (m : Int) = true ↔ Nat.Prime m := by
  rw [isPrime]
  by_cases h2 : (m : Int) < 2
  · rw [if_pos h2]
    simp only [Bool.false_eq_true, false_iff]
    intro hp
    have hm : m < 2 := by exact_mod_cast h2
    exact absurd hp.two_le (by omega)
  · rw [if_neg h2]
    have hm2 : 2 ≤ m := by exact_mod_cast Int.not_lt.mp h2
    rw [List.all_eq_true]
    constructor
    · intro hall
      refine Nat.prime_def_lt'.mpr ⟨hm2, ?_⟩
      intro i h2i hilt hdvd
      have hmem : i ∈ List.range' 2 ((m : Int).toNat - 2) := by
        rw [List.mem_range'_1, Int.toNat_natCast]
        omega
      have hne := decide_eq_true_eq.mp (hall i hmem)
      apply hne
      rw [← Int.natCast_mod]
      exact_mod_cast Nat.dvd_iff_mod_eq_zero.mp hdvd
    · intro hp i hmem
      rw [List.mem_range'_1, Int.toNat_natCast] at hmem
      rw [decide_eq_true_eq]
      intro hmod
      rw [← Int.natCast_mod] at hmod
      have hmodn : m % i = 0 := by exact_mod_cast hmod
      exact (Nat.prime_def_lt'.mp hp).2 i hmem.1 (by omega)
        (Nat.dvd_of_mod_eq_zero hmodn)

theorem isPrime_int_iff (n : Int) :
    isPrime n = true ↔ ∃ p : Nat, Nat.Prime p ∧ n = (p : Int) := by
  by_cases h : n < 2
  · constructor
    · intro hf
      rw [isPrime, if_pos h] at hf
      cases hf
    · rintro ⟨p, hp, rfl⟩
      have h2 : (2 : Int) ≤ (p : Int) := by exact_mod_cast hp.two_le
      omega
  · have hn : n = ((n.toNat : Nat) : Int) := (Int.toNat_of_nonneg (by omega)).symm
    constructor
    · intro ht
      refine ⟨n.toNat, ?_, hn⟩
      rw [hn] at ht
      exact (isPrime_natCast n.toNat).mp ht
    · rintro ⟨p, hp, rfl⟩
      exact (isPrime_natCast p).mpr hp

set_option maxRecDepth 100000 in
set_option maxHeartbeats 4000000 in
/-- C2: `isPrime` recognises exactly the prime numbers on all integers
(`true` on 2, `false` on 9), and the loop of lines 189-194 — which pushes
every `i ∈ [2, 10000)` with `isPrime i` — collects exactly 1229 primes. -/
theorem isPrime_correct :
    (∀ n : Int, isPrime n = true ↔ ∃ p : Nat, Nat.Prime p ∧ n = (p : Int)) ∧
    isPrime 2 = true ∧ isPrime 9 = false ∧
    ((List.range' 2 9998).filter fun m : Nat => isPrime (m : Int)).length = 1229 := by
  refine ⟨isPrime_int_iff, by decide, by decide, ?_⟩
  have hcong : ((List.range' 2 9998).filter fun m : Nat => isPrime (m : Int)) =
      ((List.range' 2 9998).filter fun m => primeTest m) := by
    refine List.filter_congr ?_
    intro m _
    by_cases hp : Nat.Prime m
    · rw [(isPrime_natCast m).mpr hp, (primeTest_iff m).mpr hp]
    · have h1 : isPrime (m : Int) = false := by
        cases h : isPrime (m : Int)
        · rfl
        · exact absurd ((isPrime_natCast m).mp h) hp
      have h2 : primeTest m = false := by
        cases h : primeTest m
        · rfl
        · exact absurd ((primeTest_iff m).mp h) hp
      rw [h1, h2]
  rw [hcong]
  decide

/-! ### DOM churn lemmas -/

/-- C6: with the loop's 100 created nodes fresh (pairwise distinct and
not attached beforehand), the run attaches-then-removes exactly 100
distinct nodes, none of them remains attached afterwards, and the body's
child list is exactly what it was before the call. -/
theorem dom_churn_restores_body (body : List Nat) (fresh : Nat → Nat)
    (hfresh : ∀ i, i < 100 → fresh i ∉ body)
    (hinj : ∀ i j, i < 100 → j < 100 → fresh i = fresh j → i = j) :
    inefficientDOMManipulation body fresh = (body, 100) ∧
    ((List.range 100).map fresh).Nodup ∧
    ∀ i, i < 100 → fresh i ∉ (inefficientDOMManipulation body fresh).1 := by
  have key : ∀ n, n ≤ 100 → churnRun body fresh n = (body, n) := by
    intro n
    induction n with
    | zero =>
      intro _
      rfl
    | succ k ih =>
      intro hk
      rw [churnRun, ih (by omega)]
      have he : fresh k ∉ body := hfresh k (by omega)
      simp [churnStep, List.erase_append_right _ he]
  have h100 : inefficientDOMManipulation body fresh = (body, 100) :=
    key 100 le_rfl
  refine ⟨h100, ?_, ?_⟩
  · refine List.Nodup.map_on ?_ (List.nodup_range 100)
    intro i hi j hj hij
    rw [List.mem_range] at hi hj
    exact hinj i j hi hj hij
  · intro i hi
    rw [h100]
    exact hfresh i hi

/-- Concrete instance of C6: body `[0, 1]`, fresh nodes numbered from 2. -/
theorem dom_churn_restores_body_witness :
    inefficientDOMManipulation [0, 1] (fun i => i + 2) = ([0, 1], 100) :=
  (dom_churn_restores_body [0, 1] (fun i => i + 2)
    (by intro i hi; simp)
    (by intro i j hi hj h; simp at h; omega)).1

/-! ### Bulk-processor pipeline lemmas -/

/-- C3: the six materialized passes produce exactly the sequence of the
single composed pass keeping records with `value > 0.1`, even `id` and
`2 * value > 0.5`, projected to uppercased names, in order. -/
theorem dataResult_eq_composed (largeArray : List SRecord) :
    dataResult largeArray = composedResult largeArray := by
  induction largeArray with
  | nil => rfl
  | cons r t ih =>
    simp only [dataResult, composedResult] at ih ⊢
    by_cases h1 : (10⁻¹ : ℚ) < r.value <;>
      by_cases h2 : (2 : Int) ∣ r.id <;>
        by_cases h3 : (2⁻¹ : ℚ) < r.value * 2 <;>
          (simp [List.filter_cons, h1, h2, h3] at ih ⊢; try exact ih)

/-- C9: dropping the first `filter` (`value > 0.1`) never changes the
output: any record with `doubled > 0.5` has `value > 0.25 > 0.1`. -/
theorem dataResult_first_filter_redundant (largeArray : List SRecord) :
    dataResultNoFirstFilter largeArray = dataResult largeArray := by
  induction largeArray with
  | nil => rfl
  | cons r t ih =>
    simp only [dataResultNoFirstFilter, dataResult] at ih ⊢
    by_cases h3 : (2⁻¹ : ℚ) < r.value * 2
    · have h1 : (10⁻¹ : ℚ) < r.value := by linarith
      by_cases h2 : (2 : Int) ∣ r.id <;>
        (simp [List.filter_cons, h1, h2, h3] at ih ⊢; try exact ih)
    · by_cases h1 : (10⁻¹ : ℚ) < r.value <;>
        by_cases h2 : (2 : Int) ∣ r.id <;>
          (simp [List.filter_cons, h1, h2, h3] at ih ⊢; try exact ih)

/-! ### Startup dispatch lemmas -/

/-- C1 counterexample: when the first routine (the DOM churn) raises an
uncaught exception, `badAnimation` — the routine scheduled right after
it — is never invoked: a routine's failure does prevent the invocation of
the routines that follow it. -/
theorem startup_failure_blocks_rest :
    Routine.badAnimation ∉
      startupDispatch true fun r =>
        decide (r = Routine.inefficientDOMManipulation) := by
  decide

/-- C1 amended: with the document already loaded, if no routine raises an
uncaught exception then every demonstration routine is invoked exactly
once, in the fixed order. -/
theorem startup_invokes_all (throws : Routine → Bool)
    (h : ∀ r, throws r = false) :
    startupDispatch true throws = startupOrder ∧
    ∀ r : Routine, (startupDispatch true throws).count r = 1 := by
  have hall : startupDispatch true throws = startupOrder := by
    simp [startupDispatch, startupOrder, invokeSeq, h]
  refine ⟨hall, ?_⟩
  intro r
  rw [hall]
  cases r <;> decide

/-- Concrete instance of the amended C1: no routine throws. -/
theorem startup_invokes_all_witness :
    startupDispatch true (fun _ => false) = startupOrder :=
  (startup_invokes_all (fun _ => false) (fun _ => rfl)).1

end Blocking
